import Mathlib

/-!
Shallow embedding of `docs/source/examples/example_doc_generator.py` (enaml).

The pipeline embedded here: marker-based discovery of example files
(`main`'s walk), docstring extraction (`extract_docstring`), docstring
reformatting (`clean_docstring`), templated document assembly
(`exampleDocRst`, `screenshotRst`) and the per-example generation step
(`generate_example_doc`) with its capture / cache-cleanup / search-path
behaviour.

Python strings are modelled as `List Char` (the sources are ASCII), file
paths as `String`.  Filesystem reads are assumed to succeed; the walk of
`os.walk` is abstracted to the list of full file paths in visit order.
Exceptions are modelled with `Except` / an error component: the only
exceptions that can escape the generation step in the Python code are the
`IndexError` of `extract_docstring` (the spec's `MalformedSourceError`)
and the `OSError` that `shutil.rmtree` raises when the `__enamlcache__`
directory is absent.
-/

namespace EnamlDocGen

/-- Errors that can escape one generation step:
`malformedSource` is the `IndexError` raised by `extract_docstring`
(named `MalformedSourceError` by the spec), `cacheMiss` is the `OSError`
raised by `shutil.rmtree` when `__enamlcache__` does not exist. -/
inductive GenError where
  | malformedSource
  | cacheMiss
deriving DecidableEq, Repr

/-- The triple-quote delimiter of Python docstrings. -/
def tq : List Char := ['\"', '\"', '\"']

/-- Worker for Python's `str.split('\x22\x22\x22')`: scans left to right,
cutting at each non-overlapping occurrence of the triple quote, exactly as
CPython does.  `acc` holds the reversed current chunk. -/
def splitTQGo : List Char → List Char → List (List Char)
  | [], acc => [acc.reverse]
  | [c], acc => [(c :: acc).reverse]
  | [c1, c2], acc => [(c2 :: c1 :: acc).reverse]
  | c1 :: c2 :: c3 :: rest, acc =>
    if c1 = '\"' ∧ c2 = '\"' ∧ c3 = '\"' then acc.reverse :: splitTQGo rest []
    else splitTQGo (c2 :: c3 :: rest) (c1 :: acc)

/-- Python's `script_text.split('\x22\x22\x22')`. -/
def splitTQ (s : List Char) : List (List Char) := splitTQGo s []

/-- `extract_docstring` (line 80): `script_text.split('\x22\x22\x22')[1]`.
Index `[1]` raises `IndexError` when the split produced fewer than two
parts, i.e. when there is no delimiter occurrence at all. -/
def extract_docstring (s : List Char) : Except GenError (List Char) :=
  match splitTQ s with
  | _ :: d :: _ => Except.ok d
  | _ => Except.error GenError.malformedSource

/-- `occB s i` holds when the triple-quote delimiter occurs at index `i`
of `s`. -/
def occB (s : List Char) (i : Nat) : Bool := tq.isPrefixOf (s.drop i)

example : splitTQ ['\"', '\"', '\"', 'a', 'b', '\"', '\"', '\"', 'c'] =
    [[], ['a', 'b'], ['c']] := by decide

example : extract_docstring ['x', '\"', '\"', '\"', 'a'] = Except.ok ['a'] := rfl

example : extract_docstring ['a', 'b'] = Except.error GenError.malformedSource := rfl

/-- The backquote character (code 96). -/
def bqChar : Char := '\x60'

/-- A character matched by the regex class `[A-Za-z_]`. -/
def isIdentChar (c : Char) : Bool :=
  ('A' ≤ c && c ≤ 'Z') || ('a' ≤ c && c ≤ 'z') || c = '_'

/-- ASCII whitespace as stripped by Python's `str.strip` / `str.lstrip`. -/
def isSpaceChar (c : Char) : Bool :=
  c = ' ' || c = '\t' || c = '\n' || c = '\r' || c = '\x0b' || c = '\x0c'

/-- Does the regex `\x60[A-Za-z_]+\x60` match at the start of `t`?
This is exactly the condition under which `re.sub`'s scan matches at the
current position: a backquote, a nonempty run of `[A-Za-z_]` characters
(the greedy run; shorter runs cannot be followed by a backquote), and a
closing backquote. -/
def bqMatchAt (t : List Char) : Bool :=
  match t with
  | [] => false
  | c :: r =>
    c = bqChar && !(r.takeWhile isIdentChar).isEmpty &&
      ((r.dropWhile isIdentChar).head? = some bqChar)

lemma length_dropWhile_le_self (p : Char → Bool) (l : List Char) :
    (l.dropWhile p).length ≤ l.length := by
  induction l with
  | nil => simp
  | cons c rest ih =>
    by_cases h : p c
    · simp only [List.dropWhile_cons, h, if_true]
      exact Nat.le_trans ih (Nat.le_succ _)
    · simp [List.dropWhile_cons, h]

/-- The `re.sub` of `clean_docstring` (lines 92-95): replace every
leftmost, non-overlapping match of `\x60[A-Za-z_]+\x60` by the same
identifier wrapped in double backquotes, resuming the scan after the
closing backquote of the match. -/
def subBQ (s : List Char) : List Char :=
  match s with
  | [] => []
  | c :: rest =>
    if bqMatchAt (c :: rest) then
      bqChar :: bqChar ::
        (rest.takeWhile isIdentChar ++
          bqChar :: bqChar :: subBQ (rest.dropWhile isIdentChar).tail)
    else c :: subBQ rest
termination_by s.length
decreasing_by
  · simp only [List.length_cons, List.length_tail]
    exact Nat.lt_succ_of_le
      (Nat.le_trans (Nat.sub_le _ _) (length_dropWhile_le_self _ _))
  · simp

/-- The marker line removed by `clean_docstring` (line 90), newline
included. -/
def markerNL : List Char :=
  ['<', '<', ' ', 'a', 'u', 't', 'o', 'd', 'o', 'c', '-', 'm', 'e', ' ', '>', '>', '\n']

/-- Python's `docstring.replace('<< autodoc-me >>\n', '')`: remove every
leftmost, non-overlapping occurrence, resuming the scan after the removed
text. -/
def removeMarker (s : List Char) : List Char :=
  match s with
  | [] => []
  | c :: rest =>
    if markerNL.isPrefixOf (c :: rest) then removeMarker ((c :: rest).drop markerNL.length)
    else c :: removeMarker rest
termination_by s.length
decreasing_by
  · have hm : markerNL.length = 17 := rfl
    simp only [List.length_drop, List.length_cons, hm]
    omega
  · simp

/-- Python's `str.strip()` on ASCII text. -/
def pyStrip (s : List Char) : List Char :=
  ((s.dropWhile isSpaceChar).reverse.dropWhile isSpaceChar).reverse

/-- `clean_docstring` (line 87): remove the marker line, strip, then
double the backquotes of backquoted identifiers. -/
def clean_docstring (s : List Char) : List Char :=
  subBQ (pyStrip (removeMarker s))

/-- Worker for Python's `bytes.splitlines`: `acc` holds the reversed
current line; a line ends at `\r\n`, `\r` or `\n`; input exhausted with an
empty current line produces no extra line (a trailing terminator adds no
empty line, but a wholly empty input has no line at all). -/
def pySplitlinesGo : List Char → List Char → List (List Char)
  | [], [] => []
  | [], acc => [acc.reverse]
  | '\r' :: '\n' :: rest, acc => acc.reverse :: pySplitlinesGo rest []
  | '\r' :: rest, acc => acc.reverse :: pySplitlinesGo rest []
  | '\n' :: rest, acc => acc.reverse :: pySplitlinesGo rest []
  | c :: rest, acc => pySplitlinesGo rest (c :: acc)

/-- Python's `bytes.splitlines`: the list of lines of `s`, terminators
(`\r\n`, `\r`, `\n`) removed; a trailing terminator does not produce an
extra empty line. -/
def pySplitlines (s : List Char) : List (List Char) := pySplitlinesGo s []

example : pySplitlines "ab\r\ncd\n".data = ["ab".data, "cd".data] := rfl
example : pySplitlines "\n\n".data = [[], []] := rfl
example : pySplitlines [] = [] := rfl

/-- The discovery marker `b'<< autodoc-me >>'` (line 220), without
newline: `data.splitlines()` strips the terminators. -/
def markerLine : List Char :=
  ['<', '<', ' ', 'a', 'u', 't', 'o', 'd', 'o', 'c', '-', 'm', 'e', ' ', '>', '>']

/-- An example file as the pipeline sees it.  `path` and `text` are the
file's location and content; `cachePresent` says whether the transient
`__enamlcache__` directory exists when the cleanup of lines 167-171 runs;
`captureRaises` says whether the `__import__` / `save_snapshot_of_module`
step of lines 161-162 raises (the GUI capture capability is external). -/
structure ScriptFile where
  path : String
  text : String
  cachePresent : Bool
  captureRaises : Bool
deriving DecidableEq, Repr

/-- The process-wide mutable state touched by the generator: `sys.path`
and the documents written so far (path, content). -/
structure GenState where
  sysPath : List String
  written : List (String × String)
deriving DecidableEq, Repr

/-- Discovery as `main` performs it (lines 211-221): keep the files whose
name ends in `.enaml`; if the white list is non-empty keep only paths
ending in one of its entries; finally keep the files whose binary content
contains the marker as a whole line.  `os.walk` is abstracted to the list
of file entries in visit order.  (The code tests `f.endswith('.enaml')`
on the bare file name; this is equivalent on the joined path since the
suffix contains no path separator.) -/
def discoverFiles (fs : List ScriptFile) (whiteList : List String) : List ScriptFile :=
  let cand := fs.filter (fun f => f.path.endsWith ".enaml")
  let cand2 := if whiteList.isEmpty then cand
    else cand.filter (fun f => whiteList.any (fun w => f.path.endsWith w))
  cand2.filter (fun f => decide (markerLine ∈ pySplitlines f.text.data))

/-- `os.path.basename` for POSIX paths: the part after the last slash. -/
def pyBasename (p : String) : String :=
  String.mk (p.data.reverse.takeWhile (fun c => c ≠ '/')).reverse

/-- `os.path.dirname` for POSIX paths: the part before the last slash
(modelled for ordinary non-root paths). -/
def pyDirname (p : String) : String :=
  String.mk ((p.data.reverse.dropWhile (fun c => c ≠ '/')).tail).reverse

/-- Python's `str.find` for a single character: first index or `-1`. -/
def pyFindChar (s : List Char) (c : Char) : Int :=
  match s.findIdx? (fun x => x = c) with
  | some i => (i : Int)
  | none => -1

/-- Worker for Python's `str.find` for a substring. -/
def pyFindSubGo (needle : List Char) : List Char → Nat → Int
  | [], i => if needle.isEmpty then (i : Int) else -1
  | c :: rest, i =>
    if needle.isPrefixOf (c :: rest) then (i : Int) else pyFindSubGo needle rest (i + 1)

/-- Python's `str.find` for a substring: first index or `-1`. -/
def pyFindSub (hay needle : List Char) : Int := pyFindSubGo needle hay 0

/-- Python's slice `s[:k]` for an `int` index `k` (negative counts from
the end, out-of-range clamps). -/
def pySliceTo (s : List Char) (k : Int) : List Char :=
  if k < 0 then s.take (s.length - (-k).toNat) else s.take k.toNat

/-- Python's slice `s[k:]` for an `int` index `k` (negative counts from
the end, out-of-range clamps). -/
def pySliceFrom (s : List Char) (k : Int) : List Char :=
  if k < 0 then s.drop (s.length - (-k).toNat) else s.drop k.toNat

/-- Lines 142-143: `script_name = os.path.basename(script_path)` then
`script_name[:script_name.find('.')]` — the name is cut at the FIRST
dot of the file name (and `find` returns `-1` when there is none). -/
def scriptName (p : String) : String :=
  String.mk (pySliceTo (pyBasename p).data (pyFindChar (pyBasename p).data '.'))

/-- Python's `str.title()` on ASCII text: an alphabetic character is
upper-cased after a non-alphabetic character and lower-cased after an
alphabetic one. -/
def pyTitleGo : Bool → List Char → List Char
  | _, [] => []
  | prevAlpha, c :: rest =>
    (if c.isAlpha then (if prevAlpha then c.toLower else c.toUpper) else c)
      :: pyTitleGo c.isAlpha rest

/-- Python's `str.title()`. -/
def pyTitle (s : String) : String := String.mk (pyTitleGo false s.data)

/-- Python's `str.replace` for single characters. -/
def pyReplaceChar (s : String) (a b : Char) : String :=
  String.mk (s.data.map (fun c => if c = a then b else c))

/-- `os.path.join` (modelled for a relative second component). -/
def pyJoin (a b : String) : String := a ++ "/" ++ b

/-- Python's `str.lstrip()` on ASCII text. -/
def pyLStripStr (s : String) : String := String.mk (s.data.dropWhile isSpaceChar)

/-- Lines 151-152: `script_path[script_path.find('examples'):]` with
backslashes replaced by slashes. -/
def relScriptPath (p : String) : String :=
  String.mk ((pySliceFrom p.data (pyFindSub p.data "examples".data)).map
    (fun c => if c = '\\' then '/' else c))

/-- Line 146: the human-readable title derived from the base name. -/
def titleOf (scriptPath : String) : String :=
  pyTitle (pyReplaceChar (scriptName scriptPath) '_' ' ')

/-- Line 147: the snapshot image name derived from the base name. -/
def imageNameOf (scriptPath : String) : String :=
  "ex_" ++ scriptName scriptPath ++ ".png"

/-- Lines 149-150: the output document path derived from the base name. -/
def rstPathOf (docsPath : String) (scriptPath : String) : String :=
  pyJoin docsPath ("ex_" ++ scriptName scriptPath ++ ".rst")

/-- A line of 79 dashes (template lines 102 and 126 after `dedent`). -/
def dashLine : String := String.mk (List.replicate 79 '-')

/-- A line of 79 equal signs (template line 114 after `dedent`). -/
def eqLine : String := String.mk (List.replicate 79 '=')

/-- `SCREENSHOT_RST_TEMPLATE` (lines 100-105) after `dedent`, applied to
its `name` field. -/
def screenshotRst (name : String) : String :=
  "\nScreenshot\n" ++ dashLine ++ "\n\n.. image:: images/" ++ name ++ "\n"

/-- `EXAMPLE_DOC_RST_TEMPLATE` (lines 107-129) after `dedent`, applied to
its five fields. -/
def exampleDocRst (title name path docstring screenshot : String) : String :=
  "\n..\n  NOTE: This RST file was generated by `make examples`.\n  Do not edit it directly.\n  See docs/source/examples/example_doc_generator.py\n\n"
    ++ title ++ " Example\n" ++ eqLine ++ "\n\n" ++ docstring
    ++ "\n\n.. TIP:: To see this example in action, download it from\n :download:`"
    ++ name ++ " <../../../" ++ path ++ ">`\n and run::\n\n   $ enaml-run "
    ++ name ++ ".enaml\n\n" ++ screenshot ++ "\nExample Enaml Code\n" ++ dashLine
    ++ "\n.. literalinclude:: ../../../" ++ path ++ "\n    :language: enaml\n"

/-- `generate_example_doc` (lines 132-192).  Returns the updated state
(`sys.path`, written documents) and the error that escaped, if any.
The try/except of lines 160-166 swallows every exception of the
import/snapshot step, so the only statements that can raise are the
`shutil.rmtree` of the `finally` block (line 171, when `__enamlcache__`
is absent) and `extract_docstring` (line 179); a `finally`-block raise
skips the `sys.path` restore of line 174. -/
def generate_example_doc (docsPath : String) (f : ScriptFile) (st : GenState) :
    GenState × Option GenError :=
  let extended : GenState := { st with sysPath := st.sysPath ++ [pyDirname f.path] }
  let snapshotSuccess : Bool := !f.captureRaises
  if f.cachePresent then
    let restored : GenState := { extended with sysPath := st.sysPath }
    match extract_docstring f.text.data with
    | Except.error e => (restored, some e)
    | Except.ok ds =>
      let screenshot := if snapshotSuccess then screenshotRst (imageNameOf f.path) else ""
      let doc := exampleDocRst (titleOf f.path) (scriptName f.path)
        (relScriptPath f.path) (String.mk (clean_docstring ds)) screenshot
      ({ restored with
          written := restored.written ++ [(rstPathOf docsPath f.path, pyLStripStr doc)] },
        none)
  else
    (extended, some GenError.cacheMiss)

/-- The loop of `main` (lines 217-221) over a list of already-discovered
files: generate each document in sequence; the first escaping error
aborts the rest of the run. -/
def runAll (docsPath : String) (files : List ScriptFile) (st : GenState) :
    GenState × Option GenError :=
  match files with
  | [] => (st, none)
  | f :: rest =>
    let r := generate_example_doc docsPath f st
    match r.2 with
    | none => runAll docsPath rest r.1
    | some e => (r.1, some e)

/-- `main` (lines 195-221): discover, then generate in sequence. -/
def main (docsPath : String) (fs : List ScriptFile) (whiteList : List String)
    (st : GenState) : GenState × Option GenError :=
  runAll docsPath (discoverFiles fs whiteList) st

/-- Number of positions of `s` where the triple-quote delimiter occurs. -/
def numDelims (s : List Char) : Nat :=
  (List.range s.length).countP (fun k => occB s k)

example :
    (generate_example_doc "docs" ⟨"/repo/examples/foo.enaml", "no quotes", true, true⟩
      ⟨["lib"], []⟩).2 = some GenError.malformedSource := rfl

example :
    (generate_example_doc "docs" ⟨"/repo/examples/foo.enaml", "no quotes", false, false⟩
      ⟨["lib"], []⟩).2 = some GenError.cacheMiss := rfl

/-! ### Lemmas about the triple-quote split -/

lemma occB_zero_false (c1 c2 c3 : Char) (r : List Char)
    (h : occB (c1 :: c2 :: c3 :: r) 0 = false) :
    ¬(c1 = '\"' ∧ c2 = '\"' ∧ c3 = '\"') := by
  intro ⟨h1, h2, h3⟩
  subst h1; subst h2; subst h3
  simp [occB, tq, List.isPrefixOf] at h

lemma occB_cons_succ (c : Char) (s : List Char) (k : Nat) :
    occB (c :: s) (k + 1) = occB s k := by
  simp [occB]

lemma occB_drop (s : List Char) (m k : Nat) : occB (s.drop m) k = occB s (m + k) := by
  simp [occB, List.drop_drop, Nat.add_comm]

/-- When no delimiter occurs in `s`, the split returns the single chunk
`s` (prefixed by the pending accumulator). -/
lemma splitTQGo_of_none (s : List Char) (h : ∀ k < s.length, occB s k = false) :
    ∀ acc, splitTQGo s acc = [acc.reverse ++ s] := by
  induction s with
  | nil => intro acc; simp [splitTQGo]
  | cons c rest ih =>
    intro acc
    match rest with
    | [] => simp [splitTQGo]
    | [c2] => simp [splitTQGo]
    | c2 :: c3 :: r =>
      have hc := occB_zero_false c c2 c3 r (h 0 (by simp))
      rw [splitTQGo, if_neg hc, ih]
      · simp
      · intro k hk
        have := h (k + 1) (by simpa using Nat.succ_lt_succ hk)
        rwa [occB_cons_succ] at this

/-- When the first delimiter of `a ++ tq ++ r` is the displayed one, the
split cuts exactly there. -/
lemma splitTQGo_of_first (a r : List Char)
    (h : ∀ k < a.length, occB (a ++ tq ++ r) k = false) :
    ∀ acc, splitTQGo (a ++ tq ++ r) acc = (acc.reverse ++ a) :: splitTQGo r [] := by
  induction a with
  | nil =>
    intro acc
    show splitTQGo ('\"' :: '\"' :: '\"' :: r) acc = _
    rw [splitTQGo, if_pos ⟨rfl, rfl, rfl⟩]
    simp
  | cons c a' ih =>
    intro acc
    show splitTQGo (c :: (a' ++ tq ++ r)) acc = (acc.reverse ++ c :: a') :: splitTQGo r []
    have h0 : occB (c :: (a' ++ tq ++ r)) 0 = false := h 0 (by simp)
    have hsub : ∀ k < a'.length, occB (a' ++ tq ++ r) k = false := by
      intro k hk
      have hk1 : occB (c :: (a' ++ tq ++ r)) (k + 1) = false :=
        h (k + 1) (by simp only [List.length_cons]; omega)
      rwa [occB_cons_succ] at hk1
    have hlen : (a' ++ tq ++ r).length = a'.length + 3 + r.length := by
      simp [tq]
      try omega
    match htl : a' ++ tq ++ r with
    | [] => rw [htl] at hlen; simp at hlen; omega
    | [t1] => rw [htl] at hlen; simp at hlen; omega
    | [t1, t2] => rw [htl] at hlen; simp at hlen; omega
    | t1 :: t2 :: t3 :: tr =>
      rw [htl] at h0
      rw [splitTQGo]
      rw [if_neg (occB_zero_false _ _ _ _ h0)]
      rw [← htl]
      rw [ih hsub]
      simp

/-- C1 (amended): with no delimiter occurrence at all, `extract_docstring`
raises (`IndexError`, the spec's `MalformedSourceError`). -/
theorem C1_no_delimiter_fails (s : List Char)
    (h : ∀ k < s.length, occB s k = false) :
    extract_docstring s = Except.error GenError.malformedSource := by
  unfold extract_docstring splitTQ
  rw [splitTQGo_of_none s h]

/-- C1 witness for the amended theorem at a concrete delimiter-free text. -/
theorem C1_no_delimiter_fails_witness :
    extract_docstring ['a', 'b', 'c'] = Except.error GenError.malformedSource :=
  C1_no_delimiter_fails ['a', 'b', 'c'] (by decide)

/-- C1 counterexample: the claim says every source text with fewer than
two delimiter occurrences fails, but a text with exactly one delimiter
occurrence returns the text after the delimiter (`split` yields two
parts, so index `[1]` exists). -/
theorem C1_counterexample :
    numDelims ['\"', '\"', '\"', 'a', 'b', 'c'] = 1 ∧
      extract_docstring ['\"', '\"', '\"', 'a', 'b', 'c'] = Except.ok ['a', 'b', 'c'] :=
  ⟨by decide, rfl⟩

/-- C7: for a source text with at least two (non-overlapping) delimiter
occurrences — the first at `i`, the next at `j` — `extract_docstring`
returns exactly the text strictly between them, verbatim.  (Occurrences
are taken in the left-to-right non-overlapping sense of Python's
`str.split`: the second starts at or after the end of the first.) -/
theorem C7_extract_between_first_two (s : List Char) (i j : Nat)
    (hi : occB s i = true) (hfirst : ∀ k < i, occB s k = false)
    (hj : occB s j = true) (hij : i + 3 ≤ j)
    (hsecond : ∀ k < j, i + 3 ≤ k → occB s k = false) :
    extract_docstring s = Except.ok ((s.drop (i + 3)).take (j - (i + 3))) := by
  have hpre : tq <+: s.drop i := List.isPrefixOf_iff_prefix.mp hi
  obtain ⟨u, hu⟩ := hpre
  have hs : s = s.take i ++ tq ++ u := by
    rw [List.append_assoc, hu, List.take_append_drop]
  have hilen : i ≤ s.length := by
    by_contra hc
    have : s.drop i = [] := List.drop_eq_nil_of_le (by omega)
    rw [this] at hu
    simp [tq] at hu
  have halen : (s.take i).length = i := by
    rw [List.length_take]; omega
  have hdrop3 : s.drop (i + 3) = u := by
    have h1 : s.drop (i + 3) = (s.drop i).drop 3 := by
      rw [List.drop_drop]
    rw [h1, ← hu]
    simp [tq]
  -- the second delimiter, relocated inside `u`
  set j' := j - (i + 3) with hj'
  have hju : occB u j' = true := by
    have := occB_drop s (i + 3) j'
    rw [hdrop3] at this
    rw [this, show i + 3 + j' = j by omega]
    exact hj
  have hfu : ∀ k < j', occB u k = false := by
    intro k hk
    have := occB_drop s (i + 3) k
    rw [hdrop3] at this
    rw [this]
    exact hsecond (i + 3 + k) (by omega) (by omega)
  have hpre2 : tq <+: u.drop j' := List.isPrefixOf_iff_prefix.mp hju
  obtain ⟨v, hv⟩ := hpre2
  have hu2 : u = u.take j' ++ tq ++ v := by
    rw [List.append_assoc, hv, List.take_append_drop]
  have hj'len : j' ≤ u.length := by
    by_contra hc
    have : u.drop j' = [] := List.drop_eq_nil_of_le (by omega)
    rw [this] at hv
    simp [tq] at hv
  have hblen : (u.take j').length = j' := by
    rw [List.length_take]; omega
  have hcond1 : ∀ k < (s.take i).length, occB (s.take i ++ tq ++ u) k = false := by
    intro k hk
    rw [← hs]
    exact hfirst k (by rwa [halen] at hk)
  have hcond2 : ∀ k < (u.take j').length, occB (u.take j' ++ tq ++ v) k = false := by
    intro k hk
    rw [← hu2]
    exact hfu k (by rwa [hblen] at hk)
  have hsplit1 : splitTQGo s [] = s.take i :: splitTQGo u [] := by
    conv_lhs => rw [hs]
    exact splitTQGo_of_first (s.take i) u hcond1 []
  have hsplit2 : splitTQGo u [] = u.take j' :: splitTQGo v [] := by
    conv_lhs => rw [hu2]
    exact splitTQGo_of_first (u.take j') v hcond2 []
  unfold extract_docstring splitTQ
  rw [hsplit1, hsplit2, hdrop3]

/-- C7 witness at the concrete text `x22x22x22 ab x22x22x22 c`. -/
theorem C7_extract_between_first_two_witness :
    extract_docstring ['\"', '\"', '\"', 'a', 'b', '\"', '\"', '\"', 'c'] =
      Except.ok ['a', 'b'] :=
  C7_extract_between_first_two ['\"', '\"', '\"', 'a', 'b', '\"', '\"', '\"', 'c'] 0 5
    (by decide) (by decide) (by decide) (by decide) (by decide)

/-! ### Lemmas about the backquote rewrite and `clean_docstring` -/

lemma takeWhile_all_append (p : Char → Bool) (w : List Char) (b : Char) (t : List Char)
    (hw : ∀ c ∈ w, p c = true) (hb : p b = false) :
    (w ++ b :: t).takeWhile p = w ∧ (w ++ b :: t).dropWhile p = b :: t := by
  induction w with
  | nil => simp [List.takeWhile_cons, List.dropWhile_cons, hb]
  | cons c w' ih =>
    have hc : p c = true := hw c (by simp)
    simp only [List.cons_append, List.takeWhile_cons, List.dropWhile_cons, hc, if_true]
    have := ih (fun d hd => hw d (by simp [hd]))
    exact ⟨by rw [this.1], this.2⟩

lemma subBQ_cons_ne (c : Char) (r : List Char) (h : c ≠ bqChar) :
    subBQ (c :: r) = c :: subBQ r := by
  rw [subBQ, if_neg]
  simp [bqMatchAt, h]

lemma subBQ_of_no_bq (s : List Char) (h : bqChar ∉ s) : subBQ s = s := by
  induction s with
  | nil => rw [subBQ]
  | cons c rest ih =>
    have hc : c ≠ bqChar := fun he => h (by simp [he])
    rw [subBQ_cons_ne c rest hc, ih (fun hx => h (List.mem_cons_of_mem _ hx))]

lemma subBQ_append_of_no_bq (pre t : List Char) (h : bqChar ∉ pre) :
    subBQ (pre ++ t) = pre ++ subBQ t := by
  induction pre with
  | nil => simp
  | cons c p' ih =>
    have hc : c ≠ bqChar := fun he => h (by simp [he])
    rw [List.cons_append, subBQ_cons_ne c (p' ++ t) hc,
      ih (fun hx => h (List.mem_cons_of_mem _ hx))]
    simp

lemma isIdent_not_bq (c : Char) (h : isIdentChar c = true) : c ≠ bqChar := by
  intro he
  rw [he] at h
  simp [isIdentChar, bqChar] at h

lemma subBQ_match (w post : List Char) (hw : w ≠ [])
    (hid : ∀ c ∈ w, isIdentChar c = true) :
    subBQ (bqChar :: (w ++ bqChar :: post)) =
      bqChar :: bqChar :: (w ++ bqChar :: bqChar :: subBQ post) := by
  have htk := takeWhile_all_append isIdentChar w bqChar post hid (by decide)
  have hm : bqMatchAt (bqChar :: (w ++ bqChar :: post)) = true := by
    simp [bqMatchAt, htk.1, htk.2, hw]
  rw [subBQ, if_pos (by simp [hm]), htk.1, htk.2]
  simp

lemma dropWhile_head_mem (p : Char → Bool) (l : List Char) (a : Char)
    (h : (l.dropWhile p).head? = some a) : a ∈ l := by
  induction l with
  | nil => simp [List.dropWhile] at h
  | cons c r ih =>
    by_cases hp : p c
    · rw [List.dropWhile_cons, if_pos hp] at h
      exact List.mem_cons_of_mem _ (ih h)
    · rw [List.dropWhile_cons, if_neg hp] at h
      simp at h
      simp [h]

lemma bqMatchAt_no_close (post : List Char) (h : bqChar ∉ post) :
    bqMatchAt (bqChar :: post) = false := by
  have hhd : (post.dropWhile isIdentChar).head? ≠ some bqChar := by
    intro he
    exact h (dropWhile_head_mem isIdentChar post bqChar he)
  simp [bqMatchAt, hhd]

lemma subBQ_cons_bq_no_close (post : List Char) (h : bqChar ∉ post) :
    subBQ (bqChar :: post) = bqChar :: subBQ post := by
  rw [subBQ, if_neg]
  simp [bqMatchAt_no_close post h]

/-- When the marker never occurs in `s`, the marker-removal pass of
`clean_docstring` is the identity. -/
lemma removeMarker_of_free (s : List Char)
    (h : ∀ i < s.length, markerNL.isPrefixOf (s.drop i) = false) :
    removeMarker s = s := by
  induction s with
  | nil => rw [removeMarker]
  | cons c rest ih =>
    have h0 : markerNL.isPrefixOf (c :: rest) = false := by
      have := h 0 (by simp)
      simpa using this
    rw [removeMarker, if_neg (by simp [h0])]
    rw [ih]
    intro k hk
    have := h (k + 1) (by simp only [List.length_cons]; omega)
    rwa [List.drop_succ_cons] at this

/-- C8: the backquote rewrite of `clean_docstring`.  First conjunct: every
single-backquoted nonempty `[A-Za-z_]` token is rewritten to the
double-backquote form (the scan continuing behind it).  Second conjunct: a
single-backquoted token containing a hyphen is left unmodified.  Third and
fourth conjuncts: the spec's two concrete examples, through the whole
`clean_docstring`. -/
theorem C8_backquote_rewrite :
    (∀ pre w post : List Char, bqChar ∉ pre → w ≠ [] →
      (∀ c ∈ w, isIdentChar c = true) →
      subBQ (pre ++ bqChar :: (w ++ bqChar :: post)) =
        pre ++ bqChar :: bqChar :: (w ++ bqChar :: bqChar :: subBQ post)) ∧
    (∀ u v post : List Char, (∀ c ∈ u, isIdentChar c = true) →
      (∀ c ∈ v, isIdentChar c = true) → bqChar ∉ post →
      subBQ (bqChar :: (u ++ '-' :: (v ++ bqChar :: post))) =
        bqChar :: (u ++ '-' :: (v ++ bqChar :: post))) ∧
    clean_docstring "`foo_bar` is good".data = "``foo_bar`` is good".data ∧
    clean_docstring "`foo-bar`".data = "`foo-bar`".data := by
  have habs : ∀ u v post : List Char, (∀ c ∈ u, isIdentChar c = true) →
      (∀ c ∈ v, isIdentChar c = true) → bqChar ∉ post →
      subBQ (bqChar :: (u ++ '-' :: (v ++ bqChar :: post))) =
        bqChar :: (u ++ '-' :: (v ++ bqChar :: post)) := by
    intro u v post hu hv hp
    have htk := takeWhile_all_append isIdentChar u '-' (v ++ bqChar :: post) hu (by decide)
    have hm : bqMatchAt (bqChar :: (u ++ '-' :: (v ++ bqChar :: post))) = false := by
      have hne : ¬ (('-' :: (v ++ bqChar :: post)).head? = some bqChar) := by
        intro hcon
        rw [List.head?_cons] at hcon
        exact absurd (Option.some.inj hcon) (by decide)
      simp only [bqMatchAt, htk.2, eq_false hne]
      simp
    have hnu : bqChar ∉ u := fun hx => isIdent_not_bq _ (hu _ hx) rfl
    have hnv : bqChar ∉ v := fun hx => isIdent_not_bq _ (hv _ hx) rfl
    rw [subBQ, if_neg (by simp [hm]), subBQ_append_of_no_bq u _ hnu,
      subBQ_cons_ne '-' _ (by decide), subBQ_append_of_no_bq v _ hnv,
      subBQ_cons_bq_no_close post hp, subBQ_of_no_bq post hp]
  refine ⟨?_, habs, ?_, ?_⟩
  · intro pre w post hpre hw hid
    rw [subBQ_append_of_no_bq pre _ hpre, subBQ_match w post hw hid]
  · have h1 : removeMarker "`foo_bar` is good".data = "`foo_bar` is good".data := by
      rw [removeMarker_of_free]
      decide
    have h2 : pyStrip "`foo_bar` is good".data = "`foo_bar` is good".data := by decide
    unfold clean_docstring
    rw [h1, h2]
    have h3 : ("`foo_bar` is good".data : List Char) =
        bqChar :: ("foo_bar".data ++ bqChar :: " is good".data) := by decide
    rw [h3, subBQ_match "foo_bar".data " is good".data (by decide) (by decide),
      subBQ_of_no_bq " is good".data (by decide)]
    all_goals decide
  · have h1 : removeMarker "`foo-bar`".data = "`foo-bar`".data := by
      rw [removeMarker_of_free]
      decide
    have h2 : pyStrip "`foo-bar`".data = "`foo-bar`".data := by decide
    unfold clean_docstring
    rw [h1, h2]
    have h3 : ("`foo-bar`".data : List Char) =
        bqChar :: ("foo".data ++ '-' :: ("bar".data ++ bqChar :: [])) := by decide
    rw [h3, habs "foo".data "bar".data [] (by decide) (by decide) (by decide)]

/-- C8 witness: the rewriting conjunct applied at the one-letter
identifier `a` with empty surroundings. -/
theorem C8_backquote_rewrite_witness :
    subBQ ([] ++ bqChar :: (['a'] ++ bqChar :: [])) =
      [] ++ bqChar :: bqChar :: (['a'] ++ bqChar :: bqChar :: subBQ []) :=
  C8_backquote_rewrite.1 [] ['a'] [] (by decide) (by decide) (by decide)

/-! ### Lemmas for the idempotence of `clean_docstring` -/

lemma subBQ_of_noMatch (s : List Char)
    (h : ∀ i < s.length, bqMatchAt (s.drop i) = false) : subBQ s = s := by
  induction s with
  | nil => rw [subBQ]
  | cons c rest ih =>
    have h0 : bqMatchAt (c :: rest) = false := by
      have := h 0 (by simp)
      simpa using this
    rw [subBQ, if_neg (by simp [h0]), ih]
    intro k hk
    have := h (k + 1) (by simp only [List.length_cons]; omega)
    rwa [List.drop_succ_cons] at this

lemma isPrefixOf_append_ext (a t b : List Char) (h : a.isPrefixOf t = true) :
    a.isPrefixOf (t ++ b) = true := by
  induction a generalizing t with
  | nil => simp [List.isPrefixOf]
  | cons c a' ih =>
    cases t with
    | nil => simp [List.isPrefixOf] at h
    | cons d t' =>
      rw [List.cons_append]
      simp only [List.isPrefixOf, Bool.and_eq_true] at h ⊢
      exact ⟨h.1, ih t' h.2⟩

lemma head?_append_ne_nil (t z : List Char) (h : t ≠ []) : (t ++ z).head? = t.head? := by
  cases t with
  | nil => exact absurd rfl h
  | cons c r => simp

lemma dropWhile_ne_nil_append (p : Char → Bool) (l b : List Char)
    (h : l.dropWhile p ≠ []) :
    (l ++ b).takeWhile p = l.takeWhile p ∧ (l ++ b).dropWhile p = l.dropWhile p ++ b := by
  induction l with
  | nil => exact absurd rfl h
  | cons c r ih =>
    by_cases hp : p c
    · have h' : r.dropWhile p ≠ [] := by
        rw [List.dropWhile_cons, if_pos hp] at h
        exact h
      have hr := ih h'
      simp only [List.cons_append, List.takeWhile_cons, List.dropWhile_cons, hp, if_true]
      exact ⟨by rw [hr.1], by rw [hr.2]⟩
    · simp [List.takeWhile_cons, List.dropWhile_cons, hp]

lemma bqMatchAt_append_ext (t b : List Char) (h : bqMatchAt t = true) :
    bqMatchAt (t ++ b) = true := by
  cases t with
  | nil => simp [bqMatchAt] at h
  | cons c r =>
    simp only [bqMatchAt, Bool.and_eq_true, decide_eq_true_eq] at h
    obtain ⟨⟨h1, h2⟩, h3⟩ := h
    have hne : r.dropWhile isIdentChar ≠ [] := by
      intro hnil
      rw [hnil] at h3
      simp at h3
    have hda := dropWhile_ne_nil_append isIdentChar r b hne
    rw [List.cons_append]
    simp only [bqMatchAt, Bool.and_eq_true, decide_eq_true_eq]
    refine ⟨⟨h1, ?_⟩, ?_⟩
    · rw [hda.1]
      exact h2
    · rw [hda.2, head?_append_ne_nil _ _ hne]
      exact h3

lemma drop_append_exact (A C : List Char) (i : Nat) :
    (A ++ C).drop (A.length + i) = C.drop i := by
  induction A with
  | nil => simp
  | cons c A' ih =>
    simp only [List.cons_append, List.length_cons]
    rw [show A'.length + 1 + i = A'.length + i + 1 by omega, List.drop_succ_cons]
    exact ih

lemma drop_append_le (t B : List Char) (i : Nat) (h : i ≤ t.length) :
    (t ++ B).drop i = t.drop i ++ B := by
  induction t generalizing i with
  | nil =>
    have hi : i = 0 := by simpa using h
    simp [hi]
  | cons c r ih =>
    cases i with
    | zero => simp
    | succ i' =>
      simp only [List.cons_append, List.drop_succ_cons]
      exact ih i' (by simpa using h)

/-- A position-wise scanner property that is stable under right extension
transfers from a string to any middle segment of it. -/
lemma scanFree_of_decomp (Q : List Char → Bool)
    (hext : ∀ t' b, Q t' = true → Q (t' ++ b) = true)
    (x A t B : List Char) (hx : x = A ++ (t ++ B))
    (h : ∀ i < x.length, Q (x.drop i) = false) :
    ∀ i < t.length, Q (t.drop i) = false := by
  intro i hi
  cases hq : Q (t.drop i) with
  | false => rfl
  | true =>
    exfalso
    have h1 : Q (t.drop i ++ B) = true := hext _ _ hq
    have h2 : x.drop (A.length + i) = t.drop i ++ B := by
      rw [hx, drop_append_exact]
      exact drop_append_le t B i (Nat.le_of_lt hi)
    have h3 := h (A.length + i) (by
      rw [hx]
      simp only [List.length_append]
      omega)
    rw [h2, h1] at h3
    exact absurd h3 (by simp)

lemma pyStrip_decomp (x : List Char) :
    x = x.takeWhile isSpaceChar ++
      (pyStrip x ++ ((x.dropWhile isSpaceChar).reverse.takeWhile isSpaceChar).reverse) := by
  conv_lhs => rw [← List.takeWhile_append_dropWhile isSpaceChar x]
  congr 1
  unfold pyStrip
  conv_lhs => rw [← List.reverse_reverse (x.dropWhile isSpaceChar),
    ← List.takeWhile_append_dropWhile isSpaceChar (x.dropWhile isSpaceChar).reverse]
  rw [List.reverse_append]

lemma dropWhile_head_false (p : Char → Bool) (l : List Char) (a : Char)
    (h : (l.dropWhile p).head? = some a) : p a = false := by
  induction l with
  | nil => simp [List.dropWhile] at h
  | cons c r ih =>
    by_cases hp : p c
    · rw [List.dropWhile_cons, if_pos hp] at h
      exact ih h
    · rw [List.dropWhile_cons, if_neg hp] at h
      simp at h
      rw [← h]
      cases hpc : p c with
      | false => rfl
      | true => exact absurd hpc hp

lemma dropWhile_eq_self_of_head (p : Char → Bool) (l : List Char)
    (h : ∀ a, l.head? = some a → p a = false) : l.dropWhile p = l := by
  cases l with
  | nil => rfl
  | cons c r =>
    rw [List.dropWhile_cons, if_neg]
    intro hp
    rw [h c rfl] at hp
    exact Bool.false_ne_true hp

lemma dropWhile_idem (p : Char → Bool) (l : List Char) :
    (l.dropWhile p).dropWhile p = l.dropWhile p :=
  dropWhile_eq_self_of_head p _ (fun a ha => dropWhile_head_false p l a ha)

lemma pyStrip_head (x : List Char) (a : Char) (h : (pyStrip x).head? = some a) :
    isSpaceChar a = false := by
  have hd : x.dropWhile isSpaceChar =
      pyStrip x ++ ((x.dropWhile isSpaceChar).reverse.takeWhile isSpaceChar).reverse := by
    unfold pyStrip
    conv_lhs => rw [← List.reverse_reverse (x.dropWhile isSpaceChar),
      ← List.takeWhile_append_dropWhile isSpaceChar (x.dropWhile isSpaceChar).reverse]
    rw [List.reverse_append]
  have hne : pyStrip x ≠ [] := by
    intro hnil
    rw [hnil] at h
    simp at h
  have hh : (x.dropWhile isSpaceChar).head? = some a := by
    rw [hd, head?_append_ne_nil _ _ hne]
    exact h
  exact dropWhile_head_false isSpaceChar x a hh

lemma pyStrip_idem (x : List Char) : pyStrip (pyStrip x) = pyStrip x := by
  have h1 : (pyStrip x).dropWhile isSpaceChar = pyStrip x :=
    dropWhile_eq_self_of_head _ _ (fun a ha => pyStrip_head x a ha)
  have h2 : (pyStrip x).reverse.dropWhile isSpaceChar = (pyStrip x).reverse := by
    unfold pyStrip
    rw [List.reverse_reverse]
    exact dropWhile_idem isSpaceChar _
  show (((pyStrip x).dropWhile isSpaceChar).reverse.dropWhile isSpaceChar).reverse = pyStrip x
  rw [h1, h2, List.reverse_reverse]

/-- C9: `clean_docstring` is idempotent on inputs free of the marker line
and of single-backquote matches of its rewrite pattern. -/
theorem C9_clean_docstring_idempotent (x : List Char)
    (hm : ∀ i < x.length, markerNL.isPrefixOf (x.drop i) = false)
    (hb : ∀ i < x.length, bqMatchAt (x.drop i) = false) :
    clean_docstring (clean_docstring x) = clean_docstring x := by
  have hdec := pyStrip_decomp x
  have hmt : ∀ i < (pyStrip x).length,
      markerNL.isPrefixOf ((pyStrip x).drop i) = false :=
    scanFree_of_decomp (fun l => markerNL.isPrefixOf l)
      (fun t' b hh => isPrefixOf_append_ext markerNL t' b hh) x _ (pyStrip x) _ hdec hm
  have hbt : ∀ i < (pyStrip x).length, bqMatchAt ((pyStrip x).drop i) = false :=
    scanFree_of_decomp bqMatchAt bqMatchAt_append_ext x _ (pyStrip x) _ hdec hb
  have hsub : subBQ (pyStrip x) = pyStrip x := subBQ_of_noMatch _ hbt
  have hclean : clean_docstring x = pyStrip x := by
    unfold clean_docstring
    rw [removeMarker_of_free x hm, hsub]
  rw [hclean]
  unfold clean_docstring
  rw [removeMarker_of_free _ hmt, pyStrip_idem, hsub]

/-- C9 witness at a concrete marker-free, backquote-free input. -/
theorem C9_clean_docstring_idempotent_witness :
    clean_docstring (clean_docstring ['h', 'i']) = clean_docstring ['h', 'i'] :=
  C9_clean_docstring_idempotent ['h', 'i'] (by decide) (by decide)

/-! ### Discovery -/

/-- C5: a file is yielded by discovery exactly when it is among the walked
files, its path ends in `.enaml`, it passes the (only-if-non-empty)
allow-list suffix filter, and the marker occurs as a whole line of its
content (`bytes.splitlines` membership — a mere substring does not
qualify). -/
theorem C5_discovery_characterization (fs : List ScriptFile) (wl : List String)
    (f : ScriptFile) :
    f ∈ discoverFiles fs wl ↔
      f ∈ fs ∧ f.path.endsWith ".enaml" = true ∧
        (wl ≠ [] → ∃ w ∈ wl, f.path.endsWith w = true) ∧
        markerLine ∈ pySplitlines f.text.data := by
  unfold discoverFiles
  by_cases hwl : wl.isEmpty
  · have hwl' : wl = [] := by simpa [List.isEmpty_iff] using hwl
    subst hwl'
    simp only [List.isEmpty_nil, if_true, List.mem_filter, decide_eq_true_eq]
    constructor
    · rintro ⟨⟨h1, h2⟩, h3⟩
      exact ⟨h1, h2, by simp, h3⟩
    · rintro ⟨h1, h2, _, h3⟩
      exact ⟨⟨h1, h2⟩, h3⟩
  · have hwl' : wl ≠ [] := by simpa [List.isEmpty_iff] using hwl
    have hwlf : wl.isEmpty = false := by simpa using hwl
    simp only [hwlf, Bool.false_eq_true, if_false, List.mem_filter,
      decide_eq_true_eq, List.any_eq_true]
    constructor
    · rintro ⟨⟨⟨h1, h2⟩, h3⟩, h4⟩
      exact ⟨h1, h2, fun _ => h3, h4⟩
    · rintro ⟨h1, h2, h3, h4⟩
      exact ⟨⟨⟨h1, h2⟩, h3 hwl'⟩, h4⟩

/-! ### The generation step: capture failure, cleanup, search path -/

/-- C2 counterexample: the claim says an absent cache directory is ignored
by cleanup, but at a state where `__enamlcache__` is absent the generation
step exits with the cleanup error (the `shutil.rmtree` call of line 171
has no absence guard). -/
theorem C2_counterexample :
    (generate_example_doc "docs"
      ⟨"/repo/examples/foo.enaml", "\"\"\"Doc\"\"\"", false, false⟩
      ⟨["lib"], []⟩).2 = some GenError.cacheMiss := rfl

/-- C2 (amended): when the cache directory is absent at cleanup time, the
cleanup step raises: `generate_example_doc` exits with the cleanup error,
`sys.path` still extended and nothing written. -/
theorem C2_cache_missing_raises (d : String) (f : ScriptFile) (st : GenState)
    (h : f.cachePresent = false) :
    generate_example_doc d f st =
      ({ st with sysPath := st.sysPath ++ [pyDirname f.path] },
        some GenError.cacheMiss) := by
  unfold generate_example_doc
  rw [h]
  simp

/-- C2 witness: the amended theorem at a concrete cache-absent state. -/
theorem C2_cache_missing_raises_witness :
    generate_example_doc "docs" ⟨"/repo/examples/foo.enaml", "t", false, false⟩
      ⟨[], []⟩ =
      (⟨[] ++ [pyDirname "/repo/examples/foo.enaml"], []⟩, some GenError.cacheMiss) :=
  C2_cache_missing_raises "docs" ⟨"/repo/examples/foo.enaml", "t", false, false⟩
    ⟨[], []⟩ rfl

/-- C3 counterexample: a capture step whose snapshot fails and whose cache
directory is absent exits with `sys.path` NOT restored (the restore of
line 174 sits after the `with` block, and the `finally`-block `rmtree`
raise skips it). -/
theorem C3_counterexample :
    ((generate_example_doc "docs"
        ⟨"/repo/examples/foo.enaml", "\"\"\"Doc\"\"\"", false, true⟩
        ⟨["lib"], []⟩).1).sysPath = ["lib", "/repo/examples"] ∧
      ["lib", "/repo/examples"] ≠ ["lib"] :=
  ⟨rfl, by decide⟩

/-- C3 (amended): whenever the cache cleanup succeeds (directory present),
`sys.path` is restored to its original value before the step returns, on
both the snapshot-success and the snapshot-failure path, whatever the
docstring extraction outcome. -/
theorem C3_syspath_restored (d : String) (f : ScriptFile) (st : GenState)
    (h : f.cachePresent = true) :
    ((generate_example_doc d f st).1).sysPath = st.sysPath := by
  unfold generate_example_doc
  rw [h]
  rcases hE : extract_docstring f.text.data with e | ds <;> simp [hE]

/-- C3 witness: a concrete capture-failing, cache-present state. -/
theorem C3_syspath_restored_witness :
    ((generate_example_doc "docs"
        ⟨"/repo/examples/foo.enaml", "\"\"\"Doc\"\"\"", true, true⟩
        ⟨["lib"], []⟩).1).sysPath = ["lib"] :=
  C3_syspath_restored "docs" ⟨"/repo/examples/foo.enaml", "\"\"\"Doc\"\"\"", true, true⟩
    ⟨["lib"], []⟩ rfl

/-- C4 counterexample: an example whose capture raises and whose cache
directory is absent gets NO document written (the claim asserts a document
is always written when capture raises). -/
theorem C4_counterexample :
    (generate_example_doc "docs"
        ⟨"/repo/examples/foo.enaml", "\"\"\"Doc\"\"\"", false, true⟩
        ⟨["lib"], []⟩).2 = some GenError.cacheMiss ∧
      ((generate_example_doc "docs"
        ⟨"/repo/examples/foo.enaml", "\"\"\"Doc\"\"\"", false, true⟩
        ⟨["lib"], []⟩).1).written = [] :=
  ⟨rfl, rfl⟩

/-- C4 (amended): the capture exception itself is always caught — and
provided the cache cleanup succeeds and the docstring extracts, the step
returns without error and writes the document with an EMPTY screenshot
fragment. -/
theorem C4_capture_failure_still_writes (d : String) (f : ScriptFile) (st : GenState)
    (ds : List Char) (h1 : f.captureRaises = true) (h2 : f.cachePresent = true)
    (h3 : extract_docstring f.text.data = Except.ok ds) :
    generate_example_doc d f st =
      ({ st with written := st.written ++
          [(rstPathOf d f.path,
            pyLStripStr (exampleDocRst (titleOf f.path) (scriptName f.path)
              (relScriptPath f.path) (String.mk (clean_docstring ds)) ""))] },
        none) := by
  unfold generate_example_doc
  rw [h1, h2, h3]
  simp

/-- C4 witness: a concrete capture-raising, cache-present example still
produces its document, with the empty screenshot fragment. -/
theorem C4_capture_failure_still_writes_witness :
    generate_example_doc "docs"
        ⟨"/repo/examples/foo.enaml", "\"\"\"Doc\"\"\"", true, true⟩ ⟨["lib"], []⟩ =
      (⟨["lib"],
        [] ++ [(rstPathOf "docs" "/repo/examples/foo.enaml",
          pyLStripStr (exampleDocRst (titleOf "/repo/examples/foo.enaml")
            (scriptName "/repo/examples/foo.enaml")
            (relScriptPath "/repo/examples/foo.enaml")
            (String.mk (clean_docstring "Doc".data)) ""))]⟩, none) :=
  C4_capture_failure_still_writes "docs"
    ⟨"/repo/examples/foo.enaml", "\"\"\"Doc\"\"\"", true, true⟩ ⟨["lib"], []⟩
    "Doc".data rfl rfl rfl

/-! ### Derived names and output path (C10) -/

/-- Is a character different from a dot? -/
def notDot (c : Char) : Bool := c ≠ '.'

/-- Modelled from the spec: the base name as the spec words it — the file
name minus its directory and minus its extension, the extension being the
part from the LAST dot on (as `os.path.splitext` would cut it); a dotless
name is its own base name. -/
def specBaseName (p : String) : String :=
  let fn := (pyBasename p).data
  if '.' ∈ fn then String.mk ((fn.reverse.dropWhile notDot).tail).reverse
  else String.mk fn

lemma findIdx_first_dot (a b : List Char) (ha : '.' ∉ a) :
    ∀ i, List.findIdx? (fun x => x = '.') (a ++ '.' :: b) i = some (i + a.length) := by
  induction a with
  | nil =>
    intro i
    simp [List.findIdx?_cons]
  | cons c a' ih =>
    intro i
    have hc : ¬(c = '.') := fun he => ha (by simp [he])
    rw [List.cons_append, List.findIdx?_cons, if_neg (by simpa using hc),
      ih (fun hx => ha (List.mem_cons_of_mem _ hx)) (i + 1)]
    congr 1
    simp only [List.length_cons]
    omega

/-- C10 counterexample: the code derives the base name by cutting the file
name at its FIRST dot, so for `my.cool.enaml` the derived base name `my`
differs from the file name minus its extension (`my.cool`), and the
document path uses the first-dot name. -/
theorem C10_counterexample :
    scriptName "/repo/examples/my.cool.enaml" = "my" ∧
      specBaseName "/repo/examples/my.cool.enaml" = "my.cool" ∧
      ("my" : String) ≠ "my.cool" ∧
      rstPathOf "docs" "/repo/examples/my.cool.enaml" = "docs/ex_my.rst" :=
  ⟨rfl, rfl, by decide, rfl⟩

/-- C10 (amended): the derived base name is the file name minus its
directory and minus everything from its first dot on; when the file name
contains exactly one dot this coincides with the file name minus its
extension; and the document is written to `<docsRoot>/ex_<baseName>.rst`. -/
theorem C10_base_name_and_doc_path (docs p : String) (a b : List Char)
    (hdec : (pyBasename p).data = a ++ '.' :: b) (ha : '.' ∉ a) :
    scriptName p = String.mk a ∧
      rstPathOf docs p = docs ++ "/ex_" ++ scriptName p ++ ".rst" ∧
      ('.' ∉ b → specBaseName p = String.mk a) := by
  have hsn : scriptName p = String.mk a := by
    unfold scriptName pySliceTo pyFindChar
    rw [hdec, findIdx_first_dot a b ha 0]
    simp [List.take_left]
    rw [if_neg (by omega)]
  refine ⟨hsn, ?_, ?_⟩
  · unfold rstPathOf pyJoin
    apply String.ext
    simp [String.data_append]
  · intro hb
    unfold specBaseName
    rw [hdec, if_pos (by simp)]
    have hrev : (a ++ '.' :: b).reverse = b.reverse ++ '.' :: a.reverse := by
      simp [List.reverse_append]
    rw [hrev]
    have htk := takeWhile_all_append notDot b.reverse '.' a.reverse
      (fun c hc => by
        have hcb : c ∈ b := List.mem_reverse.mp hc
        have : c ≠ '.' := fun he => hb (he ▸ hcb)
        simp [notDot, this])
      (by simp [notDot])
    rw [htk.2]
    simp

/-- C10 witness at a single-dot example file name. -/
theorem C10_base_name_and_doc_path_witness :
    scriptName "/repo/examples/foo.enaml" = String.mk "foo".data ∧
      rstPathOf "docs" "/repo/examples/foo.enaml" =
        "docs" ++ "/ex_" ++ scriptName "/repo/examples/foo.enaml" ++ ".rst" ∧
      ('.' ∉ "enaml".data → specBaseName "/repo/examples/foo.enaml" = String.mk "foo".data) :=
  C10_base_name_and_doc_path "docs" "/repo/examples/foo.enaml" "foo".data "enaml".data
    (by decide) (by decide)

/-! ### The batch run (C6) -/

lemma generate_ok_snd (d : String) (f : ScriptFile) (st : GenState)
    (h1 : f.cachePresent = true) (h2 : (extract_docstring f.text.data).isOk = true) :
    (generate_example_doc d f st).2 = none := by
  unfold generate_example_doc
  rw [h1]
  rcases hE : extract_docstring f.text.data with e | ds
  · rw [hE] at h2
    simp [Except.isOk, Except.toBool] at h2
  · simp [hE]

lemma runAll_cons_ok (d : String) (f : ScriptFile) (rest : List ScriptFile)
    (st : GenState) (h : (generate_example_doc d f st).2 = none) :
    runAll d (f :: rest) st = runAll d rest (generate_example_doc d f st).1 := by
  rw [runAll]
  simp only [h]

lemma runAll_cons_err (d : String) (f : ScriptFile) (rest : List ScriptFile)
    (st : GenState) (e : GenError) (h : (generate_example_doc d f st).2 = some e) :
    runAll d (f :: rest) st = ((generate_example_doc d f st).1, some e) := by
  rw [runAll]
  simp only [h]

/-- C6: if one discovered example's docstring extraction fails, the whole
run aborts — every example before it (and none after it) was processed,
the error escapes `runAll` (hence `main`), and the run is identical to the
run that stops at the failing example. -/
theorem C6_malformed_aborts_run (d : String) (pre post : List ScriptFile)
    (g : ScriptFile) (st : GenState)
    (hpre : ∀ f ∈ pre, f.cachePresent = true ∧ (extract_docstring f.text.data).isOk = true)
    (hg1 : g.cachePresent = true)
    (hg2 : extract_docstring g.text.data = Except.error GenError.malformedSource) :
    (runAll d (pre ++ g :: post) st).2 = some GenError.malformedSource ∧
      runAll d (pre ++ g :: post) st = runAll d (pre ++ [g]) st := by
  induction pre generalizing st with
  | nil =>
    have hgen : (generate_example_doc d g st).2 = some GenError.malformedSource := by
      unfold generate_example_doc
      rw [hg1, hg2]
      simp
    constructor
    · rw [List.nil_append, runAll_cons_err d g post st _ hgen]
    · rw [List.nil_append, List.nil_append,
        runAll_cons_err d g post st _ hgen, runAll_cons_err d g [] st _ hgen]
  | cons f pre' ih =>
    have hf := hpre f (by simp)
    have hsnd := generate_ok_snd d f st hf.1 hf.2
    have hih := ih ((generate_example_doc d f st).1)
      (fun f' hf' => hpre f' (List.mem_cons_of_mem f hf'))
    constructor
    · rw [List.cons_append, runAll_cons_ok d f _ st hsnd]
      exact hih.1
    · rw [List.cons_append, List.cons_append,
        runAll_cons_ok d f _ st hsnd, runAll_cons_ok d f _ st hsnd]
      exact hih.2

/-- C6 witness: one good example, then a malformed one, then another good
one; the run errors and equals the run truncated at the malformed file. -/
theorem C6_malformed_aborts_run_witness :
    (runAll "docs"
        ([⟨"/repo/examples/ok.enaml", "\"\"\"A\"\"\"", true, true⟩] ++
          ⟨"/repo/examples/bad.enaml", "no docstring", true, false⟩ ::
            [⟨"/repo/examples/later.enaml", "\"\"\"B\"\"\"", true, false⟩])
        ⟨[], []⟩).2 = some GenError.malformedSource ∧
      runAll "docs"
          ([⟨"/repo/examples/ok.enaml", "\"\"\"A\"\"\"", true, true⟩] ++
            ⟨"/repo/examples/bad.enaml", "no docstring", true, false⟩ ::
              [⟨"/repo/examples/later.enaml", "\"\"\"B\"\"\"", true, false⟩])
          ⟨[], []⟩ =
        runAll "docs"
          ([⟨"/repo/examples/ok.enaml", "\"\"\"A\"\"\"", true, true⟩] ++
            [⟨"/repo/examples/bad.enaml", "no docstring", true, false⟩])
          ⟨[], []⟩ :=
  C6_malformed_aborts_run "docs"
    [⟨"/repo/examples/ok.enaml", "\"\"\"A\"\"\"", true, true⟩]
    [⟨"/repo/examples/later.enaml", "\"\"\"B\"\"\"", true, false⟩]
    ⟨"/repo/examples/bad.enaml", "no docstring", true, false⟩
    ⟨[], []⟩ (by decide) rfl rfl

end EnamlDocGen
